import Mathlib

/-
Verification of the listing-parsing and difference engine of ls_compare
(src/compare.py, with the ProgressBar assertion of src/tools.py), as a
shallow embedding over Lean strings and insertion-ordered association
lists.  Python strings are modelled as Lean String values manipulated
through their character lists; Python dict values (which preserve
insertion order) are modelled as association lists; Python exceptions are
modelled with Except.
-/

/-- Python str.isspace characters as right-trimmed by str.rstrip with no
argument, restricted to the ASCII whitespace the listings contain. -/
def pyIsSpace (c : Char) : Bool :=
  c == ' ' || c == '\t' || c == '\n' || c == '\r' ||
  c == Char.ofNat 11 || c == Char.ofNat 12

/-- Python line.rstrip(): remove all trailing whitespace characters. -/
def rstripWS (s : String) : String :=
  String.mk ((s.data.reverse.dropWhile pyIsSpace).reverse)

/-- Python s.lstrip(c) for a single character c: remove every leading c. -/
def lstripChar (c : Char) (s : String) : String :=
  String.mk (s.data.dropWhile (fun x => x == c))

/-- Python s.rstrip(c) for a single character c: remove every trailing c. -/
def rstripChar (c : Char) (s : String) : String :=
  String.mk ((s.data.reverse.dropWhile (fun x => x == c)).reverse)

/-- Python s.lower(), on the ASCII letters the listings contain. -/
def pyLower (s : String) : String :=
  String.mk (s.data.map Char.toLower)

/-- Python s[n:]: drop the first n characters, clamped at the end. -/
def strDrop (s : String) (n : Nat) : String :=
  String.mk (s.data.drop n)

/-- Python s.startswith(p). -/
def pyStartsWith (s p : String) : Bool :=
  p.data.isPrefixOf s.data

/-- Python s.endswith(p). -/
def pyEndsWith (s p : String) : Bool :=
  p.data.isSuffixOf s.data

/-- Python s.split(c) for a single character c: cut at every occurrence,
keeping empty pieces; the result is never the empty list. -/
def splitCh (c : Char) : List Char → List (List Char)
  | [] => [[]]
  | x :: xs =>
    match splitCh c xs with
    | [] => [[]]
    | h :: t => if x == c then [] :: h :: t else (x :: h) :: t

/-- Python line.split(' ')[-1]: the last piece of the space split (the
split list is never empty, so the default is never used). -/
def lastSpaceToken (s : String) : String :=
  String.mk ((splitCh ' ' s.data).getLastD [])

/-- The head component of posixpath.split(p): everything up to and
including the last slash, then (when the head is not empty and not all
slashes) with its trailing slashes removed. -/
def pathSplitHead (p : String) : String :=
  let d := p.data
  let tailLen := (d.reverse.takeWhile (fun c => !(c == '/'))).length
  if tailLen = d.length then String.mk []
  else
    let head := d.take (d.length - tailLen)
    if head.all (fun c => c == '/') then String.mk head
    else String.mk ((head.reverse.dropWhile (fun c => c == '/')).reverse)

/-- PathParser.parse of src/compare.py.  The instance state _base_path is
threaded explicitly: on the first call (state none) the base path becomes
sep.join(split(path)[:-1]).lstrip('/'), i.e. the posixpath head of the
path with its leading slashes removed; the returned string is
path[len(base) + 1:], a clamped slice that never fails. -/
def PathParser.parse (basePath : Option String) (path : String) : String × Option String :=
  match basePath with
  | some b => (strDrop path (b.length + 1), some b)
  | none =>
    let b := lstripChar '/' (pathSplitHead path)
    (strDrop path (b.length + 1), some b)

/-- The directory mapping built by Comparer.parse: a Python dict from
folder key to filename list, in insertion order. -/
abbrev DirListing := List (String × List String)

/-- Python d[k] for the modelled dict. -/
def alookup : DirListing → String → Option (List String)
  | [], _ => none
  | (k, v) :: t, key => if k = key then some v else alookup t key

/-- Python d[k].append(x): some updated dict when the key is present,
none (a KeyError) when it is absent. -/
def aappend : DirListing → String → String → Option DirListing
  | [], _, _ => none
  | (k, v) :: t, key, x =>
    if k = key then some ((k, v ++ [x]) :: t)
    else
      match aappend t key x with
      | some m => some ((k, v) :: m)
      | none => none

/-- Python: if k not in d.keys(): d[k] = list(). -/
def aensure (m : DirListing) (k : String) : DirListing :=
  if (alookup m k).isSome then m else m ++ [(k, [])]

/-- Comparer.does_line_start_or_end_with_strings of src/compare.py, with
the None/str defaulting of the optional arguments resolved at each call
site into the two string lists. -/
def Comparer.does_line_start_or_end_with_strings
    (line : String) (starts endings : List String) : Bool :=
  starts.any (fun x => pyStartsWith line x) || endings.any (fun x => pyEndsWith line x)

/-- The header test of Comparer.parse: the start strings are the dot and
the slash, the end strings the colon. -/
def isHeaderLine (line : String) : Bool :=
  Comparer.does_line_start_or_end_with_strings line [".", "/"] [":"]

/-- The summary test of Comparer.parse: the start strings hold the word
total, the end strings are empty. -/
def isTotalLine (line : String) : Bool :=
  Comparer.does_line_start_or_end_with_strings line ["total"] []

/-- The errors Comparer.parse can raise.  The code only ever raises the
Python KeyError of file_content[folder_path] on an absent key;
unexpectedEntry stands for the UnexpectedEntryError kind the spec
requires, so that statements can compare the two, and is never produced
by the embedded code. -/
inductive ParseErr where
  | keyError (key : String)
  | unexpectedEntry
deriving DecidableEq

/-- line.rstrip('/').rstrip(':') applied to a header line. -/
def headerStrip (line : String) : String :=
  rstripChar ':' (rstripChar '/' line)

/-- line.lstrip('/').rstrip('/').split(' ')[-1] applied to an entry line. -/
def pyFileName (line : String) : String :=
  lastSpaceToken (rstripChar '/' (lstripChar '/' line))

/-- One iteration of the loop of Comparer.parse, on the state
(folder_path, file_content, path_parser base). -/
def parseStep (folder : String) (content : DirListing) (base : Option String)
    (rawLine : String) : Except ParseErr (String × DirListing × Option String) :=
  let line := rstripWS rawLine
  if isHeaderLine line then
    let pr := PathParser.parse base (headerStrip line)
    Except.ok (pr.1, aensure content pr.1, pr.2)
  else if isTotalLine line then
    Except.ok (folder, content, base)
  else
    match aappend content folder (pyFileName line) with
    | some m => Except.ok (folder, m, base)
    | none => Except.error (ParseErr.keyError folder)

/-- The loop of Comparer.parse over the lines. -/
def parseLines (folder : String) (content : DirListing) (base : Option String) :
    List String → Except ParseErr DirListing
  | [] => Except.ok content
  | l :: ls =>
    match parseStep folder content base l with
    | Except.ok s => parseLines s.1 s.2.1 s.2.2 ls
    | Except.error e => Except.error e

/-- Comparer.parse of src/compare.py: folder_path starts as the empty
string, file_content as the empty dict, and a fresh PathParser (base not
yet set) is created for each call. -/
def Comparer.parse (lines : List String) : Except ParseErr DirListing :=
  parseLines "" [] none lines

/-- The failure Comparer.find_mismatched_left can raise: the AssertionError
of ProgressBar.__init__ in src/tools.py (assert maximum > minimum) when
len(left) * len(right) is zero. -/
inductive EngineErr where
  | assertionError
deriving DecidableEq

/-- The matching test of Comparer.find_mismatched_left:
left_key.lstrip('/').lower() == right_key.lstrip('/').lower(). -/
def keysMatch (lk rk : String) : Bool :=
  pyLower (lstripChar '/' lk) == pyLower (lstripChar '/' rk)

/-- The string appended for one missing file:
f-string left_key.lstrip('/') + "/" + left_filename.lstrip('/') + "\n". -/
def mismatchLine (lk f : String) : String :=
  lstripChar '/' lk ++ "/" ++ lstripChar '/' f ++ "\n"

/-- The three nested loops of Comparer.find_mismatched_left, building the
mismatched list in order; the membership test embeds the Python test
left_filename not in right_filenames. -/
def Comparer.find_core (left right : DirListing) : List String :=
  left.foldl
    (fun acc l =>
      right.foldl
        (fun acc2 r =>
          if keysMatch l.1 r.1 then
            l.2.foldl
              (fun acc3 f =>
                if f ∈ r.2 then acc3 else acc3 ++ [mismatchLine l.1 f])
              acc2
          else acc2)
        acc)
    []

/-- Comparer.find_mismatched_left of src/compare.py: constructing
ProgressBar('comparing', len(left) * len(right)) asserts maximum > minimum
with minimum 0, so the call fails with AssertionError when either dict is
empty; the progress calls have no other effect on the returned value. -/
def Comparer.find_mismatched_left (left right : DirListing) : Except EngineErr (List String) :=
  if 0 < left.length * right.length then Except.ok (Comparer.find_core left right)
  else Except.error EngineErr.assertionError

/-- Equality of embedded error results is decidable, so concrete runs can
be checked by decide. -/
instance {ε α : Type} [DecidableEq ε] [DecidableEq α] : DecidableEq (Except ε α) := fun a b =>
  match a, b with
  | Except.ok x, Except.ok y =>
    if h : x = y then Decidable.isTrue (by rw [h])
    else Decidable.isFalse (fun hh => h (Except.ok.inj hh))
  | Except.error x, Except.error y =>
    if h : x = y then Decidable.isTrue (by rw [h])
    else Decidable.isFalse (fun hh => h (Except.error.inj hh))
  | Except.ok _, Except.error _ => Decidable.isFalse (fun hh => Except.noConfusion hh)
  | Except.error _, Except.ok _ => Decidable.isFalse (fun hh => Except.noConfusion hh)

/-- The error kind of the Path Normalizer contract in spec section 4.1. -/
inductive SpecPathErr where
  | malformedPathError
deriving DecidableEq

/-- Modelled from the spec: section 4.1 requires normalize, once the base
path is established, to fail with MalformedPathError when rawPath is
shorter than basePath.length + 1, and otherwise to return rawPath with the
first basePath.length + 1 characters removed.  No such failing operation
exists in src/compare.py; this definition follows the words of the spec
for comparison with PathParser.parse. -/
def specNormalize (basePath rawPath : String) : Except SpecPathErr String :=
  if rawPath.length < basePath.length + 1 then Except.error SpecPathErr.malformedPathError
  else Except.ok (strDrop rawPath (basePath.length + 1))

/-- The last whitespace-separated token of a string, following the words
of the spec for entry lines: the maximal suffix containing no whitespace
character. -/
def lastTokenWhitespaceSpec (s : String) : String :=
  String.mk ((s.data.reverse.takeWhile (fun c => !(pyIsSpace c))).reverse)

/-- The last space-separated token of a string: the maximal suffix
containing no space character.  This is the intended reading of
split(' ')[-1], proved below to agree with lastSpaceToken. -/
def specLastSpaceToken (s : String) : String :=
  String.mk ((s.data.reverse.takeWhile (fun c => !(c == ' '))).reverse)

/-- Stripping one leading separator, following the words of the claim on
directory matching: remove a single leading slash when one is present. -/
def stripOneLeadingSep (s : String) : String :=
  if pyStartsWith s ("/") then strDrop s 1 else s

/-- The matching predicate following the words of the claim on directory
matching: keys equal case-insensitively after stripping one leading
separator from each. -/
def specKeysMatchOne (a b : String) : Bool :=
  pyLower (stripOneLeadingSep a) == pyLower (stripOneLeadingSep b)

/-- The per-pair missing lines of one matched directory pair: the left
filenames absent from the right list, each rendered by mismatchLine, in
left order. -/
def perPair (lk : String) (lfs rfs : List String) : List String :=
  (lfs.filter (fun f => decide (f ∉ rfs))).map (fun f => mismatchLine lk f)

def C1_left : List String :=
  ["./root/sub1:", "total 2", "x.txt", "y.txt", "./root/sub2:", "total 1", "z.txt"]

def C1_right : List String :=
  ["./root/sub1:", "total 1", "x.txt", "./root/sub3:", "total 1", "w.txt"]

def C1_L : DirListing := [("sub1", ["x.txt", "y.txt"]), ("sub2", ["z.txt"])]

def C1_R : DirListing := [("sub1", ["x.txt"]), ("sub3", ["w.txt"])]

lemma inner_acc (k : String) (rfs : List String) :
    ∀ (fs acc : List String),
      fs.foldl (fun acc3 f => if f ∈ rfs then acc3 else acc3 ++ [mismatchLine k f]) acc
        = acc ++ perPair k fs rfs := by
  intro fs
  induction fs with
  | nil => intro acc; simp [perPair]
  | cons f fs ih =>
    intro acc
    by_cases hf : f ∈ rfs
    · simp [List.foldl_cons, hf, ih, perPair, List.filter_cons]
    · simp [List.foldl_cons, hf, ih, perPair, List.filter_cons, List.append_assoc]

lemma mid_acc (lk : String) (lfs : List String) :
    ∀ (right : DirListing) (acc : List String),
      right.foldl
        (fun acc2 r =>
          if keysMatch lk r.1 then
            lfs.foldl (fun acc3 f => if f ∈ r.2 then acc3 else acc3 ++ [mismatchLine lk f]) acc2
          else acc2)
        acc
      = acc ++ (right.filter (fun r => keysMatch lk r.1)).flatMap (fun r => perPair lk lfs r.2) := by
  intro right
  induction right with
  | nil => intro acc; simp
  | cons r rs ih =>
    intro acc
    cases hr : keysMatch lk r.1 with
    | false => simp [List.foldl_cons, hr, ih, List.filter_cons]
    | true =>
      simp [List.foldl_cons, hr, List.filter_cons, List.flatMap_cons, inner_acc lk r.2 lfs acc, ih,
        List.append_assoc]

lemma find_core_eq (left right : DirListing) :
    Comparer.find_core left right
      = left.flatMap (fun l =>
          (right.filter (fun r => keysMatch l.1 r.1)).flatMap (fun r => perPair l.1 l.2 r.2)) := by
  have h : ∀ (m : DirListing) (acc : List String),
      m.foldl
        (fun acc l =>
          right.foldl
            (fun acc2 r =>
              if keysMatch l.1 r.1 then
                l.2.foldl (fun acc3 f => if f ∈ r.2 then acc3 else acc3 ++ [mismatchLine l.1 f]) acc2
              else acc2)
            acc)
        acc
      = acc ++ m.flatMap (fun l =>
          (right.filter (fun r => keysMatch l.1 r.1)).flatMap (fun r => perPair l.1 l.2 r.2)) := by
    intro m
    induction m with
    | nil => intro acc; simp
    | cons x xs ih =>
      intro acc
      simp only [List.foldl_cons, List.flatMap_cons, ih, mid_acc x.1 x.2 right acc, List.append_assoc]
  simpa using h left []

lemma dropWhileEq_head_ne (c : Char) (l : List Char) :
    (l.dropWhile (fun x => x == c)).head? ≠ some c := by
  induction l with
  | nil => simp
  | cons x xs ih =>
    by_cases hx : x = c
    · simp [List.dropWhile_cons, hx, ih]
    · simp [List.dropWhile_cons, hx]

lemma splitCh_ne_nil (c : Char) (l : List Char) : splitCh c l ≠ [] := by
  cases l with
  | nil => simp [splitCh]
  | cons x xs =>
    cases hs : splitCh c xs with
    | nil => simp [splitCh, hs]
    | cons h t =>
      simp only [splitCh, hs]
      split <;> simp

lemma splitCh_not_mem (c : Char) : ∀ l : List Char, c ∉ l → splitCh c l = [l] := by
  intro l
  induction l with
  | nil => intro _; rfl
  | cons x xs ih =>
    intro hmem
    have hx : ¬(x == c) = true := by
      simp only [beq_iff_eq]
      intro h; exact hmem (by simp [h])
    have hxs : c ∉ xs := fun h => hmem (List.mem_cons_of_mem _ h)
    simp only [splitCh, ih hxs]
    simp [hx]

lemma splitCh_mem_len (c : Char) : ∀ l : List Char, c ∈ l → 2 ≤ (splitCh c l).length := by
  intro l
  induction l with
  | nil => intro h; exact absurd h (List.not_mem_nil c)
  | cons x xs ih =>
    intro hmem
    obtain ⟨h, t, hs⟩ := List.exists_cons_of_ne_nil (splitCh_ne_nil c xs)
    by_cases hx : x = c
    · have : splitCh c (x :: xs) = [] :: h :: t := by
        simp only [splitCh, hs]
        simp [hx]
      rw [this]
      simp [Nat.succ_le_succ, Nat.le_add_left]
    · have hcxs : c ∈ xs := by
        cases List.mem_cons.mp hmem with
        | inl hh => exact absurd hh.symm hx
        | inr hh => exact hh
      have h2 := ih hcxs
      rw [hs] at h2
      have : splitCh c (x :: xs) = (x :: h) :: t := by
        simp only [splitCh, hs]
        simp [hx]
      rw [this]
      simpa using h2

lemma takeWhile_append_all {α : Type} (p : α → Bool) :
    ∀ (A B : List α), (A ++ B).takeWhile p
      = if A.all p then A ++ B.takeWhile p else A.takeWhile p := by
  intro A
  induction A with
  | nil => intro B; simp
  | cons a A ih =>
    intro B
    cases ha : p a with
    | false => simp [List.takeWhile_cons, ha]
    | true =>
      cases hall : A.all p with
      | false => simp [List.takeWhile_cons, ha, ih, hall]
      | true => simp [List.takeWhile_cons, ha, ih, hall]

lemma takeWhile_of_all {α : Type} (p : α → Bool) :
    ∀ (A : List α), A.all p = true → A.takeWhile p = A := by
  intro A
  induction A with
  | nil => intro _; rfl
  | cons a A ih =>
    intro h
    rw [List.all_cons, Bool.and_eq_true] at h
    simp [List.takeWhile_cons, h.1, ih h.2]

lemma getLastD_of_ne_nil {α : Type} (t : List α) (a b : α) (h : t ≠ []) :
    t.getLastD a = t.getLastD b := by
  cases t with
  | nil => exact absurd rfl h
  | cons x xs => rw [List.getLastD_cons, List.getLastD_cons]

lemma splitCh_getLastD (c : Char) :
    ∀ l : List Char,
      (splitCh c l).getLastD [] = (l.reverse.takeWhile (fun x => !(x == c))).reverse := by
  intro l
  induction l with
  | nil => rfl
  | cons x xs ih =>
    obtain ⟨h, t, hs⟩ := List.exists_cons_of_ne_nil (splitCh_ne_nil c xs)
    by_cases hx : x = c
    · have hstep : splitCh c (x :: xs) = [] :: h :: t := by
        simp only [splitCh, hs]
        simp [hx]
      rw [hstep, List.getLastD_cons, ← hs, ih, List.reverse_cons, takeWhile_append_all]
      cases hall : xs.reverse.all (fun y => !(y == c)) with
      | false => simp [hall]
      | true =>
        have hpx : (fun y => !(y == c)) x = false := by simp [hx]
        simp only [hall, if_true]
        rw [takeWhile_of_all _ _ hall]
        simp [List.takeWhile_cons, hpx]
    · have hxb : (x == c) = false := by simp [hx]
      have hstep : splitCh c (x :: xs) = (x :: h) :: t := by
        simp only [splitCh, hs]
        simp [hxb]
      by_cases hcm : c ∈ xs
      · have ht : t ≠ [] := by
          have h2 := splitCh_mem_len c xs hcm
          rw [hs] at h2
          simp only [List.length_cons] at h2
          intro he
          rw [he] at h2
          simp at h2
        have hallf : xs.reverse.all (fun y => !(y == c)) = false := by
          cases hA : xs.reverse.all (fun y => !(y == c)) with
          | false => rfl
          | true =>
            have := List.all_eq_true.mp hA c (List.mem_reverse.mpr hcm)
            simp at this
        have lhs1 : ((x :: h) :: t).getLastD ([] : List Char) = t.getLastD (x :: h) :=
          List.getLastD_cons _ _ _
        have lhs2 : t.getLastD (x :: h) = t.getLastD h := getLastD_of_ne_nil t _ _ ht
        have lhs3 : t.getLastD h = (h :: t).getLastD [] := (List.getLastD_cons _ _ _).symm
        rw [hstep, lhs1, lhs2, lhs3, ← hs, ih, List.reverse_cons, takeWhile_append_all, hallf]
        simp
      · have hsx : splitCh c xs = [xs] := splitCh_not_mem c xs hcm
        have hco : h :: t = [xs] := by rw [← hs, hsx]
        have hht : h = xs ∧ t = [] := ⟨(List.cons.inj hco).1, (List.cons.inj hco).2⟩
        have hallt : xs.reverse.all (fun y => !(y == c)) = true := by
          apply List.all_eq_true.mpr
          intro y hy
          have hyx : y ∈ xs := List.mem_reverse.mp hy
          have : y ≠ c := fun e => hcm (e ▸ hyx)
          simp [this]
        rw [hstep, hht.1, hht.2, List.reverse_cons, takeWhile_append_all, hallt]
        simp [List.takeWhile_cons, hxb, List.getLastD_cons, takeWhile_of_all _ _ hallt]

lemma lastSpaceToken_eq_spec (s : String) : lastSpaceToken s = specLastSpaceToken s :=
  congrArg String.mk (splitCh_getLastD ' ' s.data)

lemma aappend_of_alookup :
    ∀ (m : DirListing) (key x : String) (v : List String),
      alookup m key = some v →
      ∃ m2, aappend m key x = some m2 ∧ alookup m2 key = some (v ++ [x]) := by
  intro m
  induction m with
  | nil => intro key x v h; exact absurd h (by simp [alookup])
  | cons p t ih =>
    intro key x v h
    obtain ⟨k, w⟩ := p
    by_cases hk : k = key
    · have hv : w = v := by
        rw [alookup, if_pos hk] at h
        exact Option.some.inj h
      refine ⟨(k, w ++ [x]) :: t, ?_, ?_⟩
      · rw [aappend, if_pos hk]
      · rw [alookup, if_pos hk, hv]
    · rw [alookup, if_neg hk] at h
      obtain ⟨m2, hm2, hl2⟩ := ih key x v h
      refine ⟨(k, w) :: m2, ?_, ?_⟩
      · rw [aappend, if_neg hk, hm2]
      · rw [alookup, if_neg hk]
        exact hl2


/-- Claim C1, as stated, is false on the code: parsing the two listings of
spec section 8 succeeds, but the left-vs-right run of the difference
engine does not yield the list containing the bare string of the claim,
because every emitted string carries a trailing newline. -/
theorem C1_end_to_end_cex :
    Comparer.parse C1_left = Except.ok C1_L ∧
    Comparer.parse C1_right = Except.ok C1_R ∧
    Comparer.find_mismatched_left C1_L C1_R ≠ Except.ok ["sub1/y.txt"] :=
  ⟨rfl, rfl, by decide⟩

/-- Claim C1 amended: the left-vs-right direction yields exactly the
one-element list whose string is "sub1/y.txt" followed by a newline, and
the right-vs-left direction yields the empty list. -/
theorem C1_end_to_end_amended :
    Comparer.parse C1_left = Except.ok C1_L ∧
    Comparer.parse C1_right = Except.ok C1_R ∧
    Comparer.find_mismatched_left C1_L C1_R = Except.ok ["sub1/y.txt\n"] ∧
    Comparer.find_mismatched_left C1_R C1_L = Except.ok [] :=
  ⟨rfl, rfl, rfl, rfl⟩

/-- Claim C2 is right and the code is wrong: a fully blank line is not a
no-op of Comparer.parse.  After a header it reaches the entry branch
(the blank line starts with neither a dot, a slash nor the word total,
and does not end with a colon), where the slash stripping and the space
split of the empty line leave the empty string as the last token, so the
empty filename is appended to the current directory; with
no preceding header the same branch raises KeyError. -/
theorem C2_blank_line_eval :
    Comparer.parse ["./root/sub1:", ""] = Except.ok [("sub1", [""])] ∧
    Comparer.parse [""] = Except.error (ParseErr.keyError "") :=
  ⟨rfl, rfl⟩

/-- Claim C3, as stated, is false on the code: with the base path
established as "./root", normalizing the shorter raw path "./a" does not
fail with a MalformedPathError; PathParser.parse returns the empty string
(the Python slice path[len(base) + 1:] is clamped), while the operation
modelled from the words of the spec fails. -/
theorem C3_short_path_cex :
    String.length ("./a") < String.length ("./root") + 1 ∧
    PathParser.parse (some ("./root")) ("./a") = ("", some ("./root")) ∧
    specNormalize ("./root") ("./a") = Except.error SpecPathErr.malformedPathError :=
  ⟨by decide, rfl, rfl⟩

/-- Claim C3 amended: for every established base path, normalizing a raw
path shorter than the base path length plus one returns the empty string
and leaves the base path unchanged; the operation never fails. -/
theorem C3_short_path_amended (base raw : String)
    (h : raw.length < base.length + 1) :
    PathParser.parse (some base) raw = ("", some base) := by
  have hd : raw.data.length ≤ base.length + 1 := Nat.le_of_lt h
  show (strDrop raw (base.length + 1), some base) = ("", some base)
  rw [strDrop, List.drop_eq_nil_of_le hd]

theorem C3_short_path_witness :
    PathParser.parse (some ("./root")) ("./aa") = ("", some ("./root")) :=
  C3_short_path_amended ("./root") ("./aa") (by decide)

/-- Claim C4, as stated, is false on the code: a line sequence whose first
line is an entry line makes Comparer.parse fail, but with the generic
KeyError of file_content[folder_path] on the empty-string current
directory, not with the distinguishable UnexpectedEntryError kind the
spec requires. -/
theorem C4_unexpected_entry_cex :
    Comparer.parse ["a.txt"] = Except.error (ParseErr.keyError "") ∧
    Comparer.parse ["a.txt"] ≠ Except.error ParseErr.unexpectedEntry :=
  ⟨rfl, by decide⟩

/-- Claim C4 amended: for every line sequence in which an entry line (one
that is neither a header line nor a summary line after right-trimming)
occurs before any header line, the parse fails as a whole with the
generic KeyError carrying the empty-string current-directory key, and no
mapping is produced. -/
theorem C4_entry_before_header_amended (pre : List String) (e : String) (rest : List String)
    (hpre : ∀ l ∈ pre, isHeaderLine (rstripWS l) = false)
    (hH : isHeaderLine (rstripWS e) = false)
    (hT : isTotalLine (rstripWS e) = false) :
    Comparer.parse (pre ++ e :: rest) = Except.error (ParseErr.keyError "") := by
  show parseLines "" [] none (pre ++ e :: rest) = Except.error (ParseErr.keyError "")
  induction pre with
  | nil =>
    simp only [List.nil_append, parseLines, parseStep, hH, hT]
    simp [aappend]
  | cons p ps ih =>
    have hp : isHeaderLine (rstripWS p) = false := hpre p (List.mem_cons_self p ps)
    have hps : ∀ l ∈ ps, isHeaderLine (rstripWS l) = false :=
      fun l hl => hpre l (List.mem_cons_of_mem p hl)
    cases hpt : isTotalLine (rstripWS p) with
    | true =>
      have hstep : parseStep "" [] none p = Except.ok ("", [], none) := by
        simp only [parseStep, hp, hpt]
        simp
      simp only [List.cons_append, parseLines, hstep]
      exact ih hps
    | false =>
      have hstep : parseStep "" [] none p = Except.error (ParseErr.keyError "") := by
        simp only [parseStep, hp, hpt]
        simp [aappend]
      simp only [List.cons_append, parseLines, hstep]

theorem C4_entry_before_header_witness :
    Comparer.parse (["total 3"] ++ "a.txt" :: ["./x:"]) = Except.error (ParseErr.keyError "") :=
  C4_entry_before_header_amended ["total 3"] ("a.txt") ["./x:"]
    (by decide) (by decide) (by decide)

/-- Claim C5, as stated, is false on the code: the filename is taken with
split(' '), which cuts at space characters only, so on the tab-separated
entry line "a TAB b.txt" the whole line is appended, while the last
whitespace-separated token of the claim (spec reading) is "b.txt". -/
theorem C5_tab_token_cex :
    Comparer.parse ["./r/d:", "a\tb.txt"] = Except.ok [("d", ["a\tb.txt"])] ∧
    lastTokenWhitespaceSpec (rstripChar '/' (lstripChar '/' (rstripWS ("a\tb.txt")))) = "b.txt" ∧
    ("a\tb.txt" : String) ≠ "b.txt" :=
  ⟨rfl, rfl, by decide⟩

/-- Claim C5 amended: for every entry line (neither header nor summary
after right-trimming) processed while the current directory key is
present, the filename appended to that directory is the last
space-separated token — the maximal suffix containing no space
character — of the line after right-trimming and stripping leading and
trailing slash characters; splitting is on the space character only. -/
theorem C5_last_space_token_amended (folder : String) (content : DirListing)
    (base : Option String) (l : String) (v : List String)
    (hH : isHeaderLine (rstripWS l) = false)
    (hT : isTotalLine (rstripWS l) = false)
    (hv : alookup content folder = some v) :
    ∃ m, parseStep folder content base l = Except.ok (folder, m, base) ∧
      alookup m folder
        = some (v ++ [specLastSpaceToken (rstripChar '/' (lstripChar '/' (rstripWS l)))]) := by
  obtain ⟨m, hm, hl⟩ :=
    aappend_of_alookup content folder (pyFileName (rstripWS l)) v hv
  refine ⟨m, ?_, ?_⟩
  · simp only [parseStep, hH, hT]
    simp [hm]
  · rw [hl, pyFileName, lastSpaceToken_eq_spec]

theorem C5_last_space_token_witness :
    ∃ m, parseStep ("d") [("d", ["x"])] (some ("./r")) ("dir1 f.txt")
        = Except.ok ("d", m, some ("./r")) ∧
      alookup m ("d")
        = some (["x"] ++ [specLastSpaceToken (rstripChar '/' (lstripChar '/' (rstripWS ("dir1 f.txt"))))]) :=
  C5_last_space_token_amended ("d") [("d", ["x"])] (some ("./r")) ("dir1 f.txt") ["x"]
    (by decide) (by decide) (by decide)

/-- Claim C6, as stated, is false on the code: the keys "//a" and "a" are
treated as matched by the difference engine (lstrip('/') removes every
leading slash), although they are not equal case-insensitively after
stripping one leading separator from each; with a file "f" only on the
left, the engine emits a line for the pair. -/
theorem C6_leading_sep_cex :
    keysMatch ("//a") ("a") = true ∧
    specKeysMatchOne ("//a") ("a") = false ∧
    Comparer.find_mismatched_left [("//a", ["f"])] [("a", [])] = Except.ok ["a/f\n"] :=
  ⟨rfl, rfl, rfl⟩

/-- Claim C6 amended: two directory keys are treated as matched if and
only if they are equal case-insensitively after stripping all leading
separators from each; operationally, probing the engine with a single
left directory holding one filename and the matching right directory
empty, the output is empty exactly when the keys do not match. -/
theorem C6_match_amended (a b : String) :
    (keysMatch a b = true ↔ pyLower (lstripChar '/' a) = pyLower (lstripChar '/' b)) ∧
    (Comparer.find_mismatched_left [(a, ["p"])] [(b, [])] = Except.ok []
      ↔ ¬ pyLower (lstripChar '/' a) = pyLower (lstripChar '/' b)) := by
  constructor
  · exact beq_iff_eq
  · have hlen : 0 < ([(a, ["p"])] : DirListing).length * ([(b, [])] : DirListing).length := by simp
    rw [Comparer.find_mismatched_left, if_pos hlen]
    cases hm : keysMatch a b with
    | true =>
      have heq : pyLower (lstripChar '/' a) = pyLower (lstripChar '/' b) := beq_iff_eq.mp hm
      constructor
      · intro hout
        have : Comparer.find_core [(a, ["p"])] [(b, [])] = [] := Except.ok.inj hout
        rw [find_core_eq] at this
        simp [perPair, hm] at this
      · intro hne; exact absurd heq hne
    | false =>
      have hne : ¬ pyLower (lstripChar '/' a) = pyLower (lstripChar '/' b) := by
        intro heq
        have htrue : keysMatch a b = true := beq_iff_eq.mpr heq
        rw [hm] at htrue
        exact Bool.false_ne_true htrue
      constructor
      · intro _; exact hne
      · intro _
        rw [find_core_eq]
        simp [hm]

/-- Claim C7: whenever the engine runs (both mappings nonempty, so the
progress-bar assertion passes), its output is the in-order concatenation,
over the left keys, of the per-pair missing lines against every right key
whose folded value matches — each matched right directory is evaluated
independently and the results of all matches accumulate, with no
deduplication across matches. -/
theorem C7_multi_match_accumulation (left right : DirListing)
    (h : 0 < left.length * right.length) :
    Comparer.find_mismatched_left left right
      = Except.ok (left.flatMap (fun l =>
          (right.filter (fun r => keysMatch l.1 r.1)).flatMap (fun r => perPair l.1 l.2 r.2))) := by
  rw [Comparer.find_mismatched_left, if_pos h, find_core_eq]

theorem C7_multi_match_witness :
    0 < ([(("a" : String), (["f"] : List String))] : DirListing).length
        * ([(("A" : String), (["g"] : List String)), (("a" : String), (["h"] : List String))] : DirListing).length ∧
    Comparer.find_mismatched_left [("a", ["f"])] [("A", ["g"]), ("a", ["h"])]
      = Except.ok ["a/f\n", "a/f\n"] :=
  ⟨by decide,
    by rw [C7_multi_match_accumulation [("a", ["f"])] [("A", ["g"]), ("a", ["h"])] (by decide)]; rfl⟩

/-- Claim C8: a left directory key with no case-insensitive match among
the right keys contributes zero output lines: removing it from the left
mapping leaves the loop output unchanged, and whenever the engine runs on
the larger mapping its result is exactly the loop output of the mapping
without that key. -/
theorem C8_unmatched_contributes_nothing (k : String) (fs : List String)
    (l1 l2 right : DirListing)
    (hnm : ∀ r ∈ right, keysMatch k r.1 = false) :
    Comparer.find_core (l1 ++ (k, fs) :: l2) right = Comparer.find_core (l1 ++ l2) right ∧
    (0 < (l1 ++ (k, fs) :: l2).length * right.length →
      Comparer.find_mismatched_left (l1 ++ (k, fs) :: l2) right
        = Except.ok (Comparer.find_core (l1 ++ l2) right)) := by
  have hfilter : right.filter (fun r => keysMatch k r.1) = [] :=
    List.filter_eq_nil_iff.mpr (fun r hr => by rw [hnm r hr]; exact Bool.false_ne_true)
  have hcore : Comparer.find_core (l1 ++ (k, fs) :: l2) right
      = Comparer.find_core (l1 ++ l2) right := by
    rw [find_core_eq, find_core_eq, List.flatMap_append, List.flatMap_cons, List.flatMap_append]
    simp [hfilter]
  refine ⟨hcore, fun hp => ?_⟩
  rw [Comparer.find_mismatched_left, if_pos hp, hcore]

theorem C8_unmatched_witness :
    Comparer.find_core ([(("a" : String), (["x"] : List String))] ++ ("q", ["f"]) :: []) [("a", [])]
        = Comparer.find_core ([(("a" : String), (["x"] : List String))] ++ []) [("a", [])] ∧
    (0 < ([(("a" : String), (["x"] : List String))] ++ ("q", ["f"]) :: []).length
        * ([(("a" : String), ([] : List String))] : DirListing).length →
      Comparer.find_mismatched_left ([(("a" : String), (["x"] : List String))] ++ ("q", ["f"]) :: []) [("a", [])]
        = Except.ok (Comparer.find_core ([(("a" : String), (["x"] : List String))] ++ []) [("a", [])])) :=
  C8_unmatched_contributes_nothing ("q") ["f"] [("a", ["x"])] [] [("a", [])] (by decide)

/-- Claim C9: the difference engine is a pure function of the two
mappings, so two calls on identical inputs are equal, and the loop output
is the in-order traversal of the left mapping, then of the right mapping,
in their insertion (list) order — no other ordering enters. -/
theorem C9_deterministic (A B A2 B2 : DirListing) (hA : A = A2) (hB : B = B2) :
    Comparer.find_mismatched_left A B = Comparer.find_mismatched_left A2 B2 ∧
    Comparer.find_core A B
      = A.flatMap (fun l =>
          (B.filter (fun r => keysMatch l.1 r.1)).flatMap (fun r => perPair l.1 l.2 r.2)) := by
  constructor
  · rw [hA, hB]
  · exact find_core_eq A B

theorem C9_deterministic_witness :
    Comparer.find_mismatched_left [(("b" : String), (["1"] : List String))] [(("B" : String), ([] : List String))]
        = Comparer.find_mismatched_left [(("b" : String), (["1"] : List String))] [(("B" : String), ([] : List String))] ∧
    Comparer.find_core [(("b" : String), (["1"] : List String))] [(("B" : String), ([] : List String))]
      = ([(("b" : String), (["1"] : List String))] : DirListing).flatMap (fun l =>
          (([(("B" : String), ([] : List String))] : DirListing).filter
            (fun r => keysMatch l.1 r.1)).flatMap (fun r => perPair l.1 l.2 r.2)) :=
  C9_deterministic [("b", ["1"])] [("B", [])] [("b", ["1"])] [("B", [])] rfl rfl

/-- Claim C10: every string of the engine output comes from a left key
and one of its filenames, is exactly the concatenation of the
slash-stripped key, a slash, the slash-stripped filename and a newline —
so it ends with the newline terminator, carried by the engine result
itself — and its filename part starts with no slash. -/
theorem C10_output_format (A B : DirListing) (out : List String) (s : String)
    (hok : Comparer.find_mismatched_left A B = Except.ok out)
    (hs : s ∈ out) :
    ∃ k fs f, (k, fs) ∈ A ∧ f ∈ fs ∧
      s = lstripChar '/' k ++ "/" ++ lstripChar '/' f ++ "\n" ∧
      (lstripChar '/' f).data.head? ≠ some '/' ∧
      ∃ t, s = t ++ "\n" := by
  have hout : out = Comparer.find_core A B := by
    rw [Comparer.find_mismatched_left] at hok
    by_cases hp : 0 < A.length * B.length
    · rw [if_pos hp] at hok
      exact (Except.ok.inj hok).symm
    · rw [if_neg hp] at hok
      exact absurd hok (fun hh => Except.noConfusion hh)
  rw [hout, find_core_eq] at hs
  obtain ⟨l, hlA, hs2⟩ := List.mem_flatMap.mp hs
  obtain ⟨r, _, hs3⟩ := List.mem_flatMap.mp hs2
  obtain ⟨f, hf, heq⟩ := List.mem_map.mp hs3
  refine ⟨l.1, l.2, f, ?_, List.mem_of_mem_filter hf, heq.symm, ?_, ?_⟩
  · have : (l.1, l.2) = l := rfl
    rw [this]
    exact hlA
  · rw [lstripChar]
    exact dropWhileEq_head_ne '/' f.data
  · exact ⟨lstripChar '/' l.1 ++ "/" ++ lstripChar '/' f, heq.symm⟩

theorem C10_output_format_witness :
    ∃ k fs f, (k, fs) ∈ ([(("a" : String), (["f"] : List String))] : DirListing) ∧ f ∈ fs ∧
      ("a/f\n" : String) = lstripChar '/' k ++ "/" ++ lstripChar '/' f ++ "\n" ∧
      (lstripChar '/' f).data.head? ≠ some '/' ∧
      ∃ t, ("a/f\n" : String) = t ++ "\n" :=
  C10_output_format [("a", ["f"])] [("a", [])] ["a/f\n"] ("a/f\n") rfl (by decide)
